import Mathlib

/-!
# ATECC608 host driver: transport protocol

A shallow embedding of `atecc_crc.c` and of the protocol layer of
`atecc_pico.c`.

* Bytes (`uint8_t`), `uint16_t` and `uint64_t` values are natural numbers;
  every place where the C code truncates is written with an explicit `%`.
* A buffer passed as pointer plus length is a `List Nat` plus a `Nat`.
* The I2C primitives of the SDK are not part of the repository; they are an
  arbitrary deterministic environment (`Bus`) that decides, from the trace of
  earlier transfers, what each transfer returns.
* `printf` and `sleep_ms` do not influence any value and are left out.
-/

namespace Atecc

/-! ## CRC engine (`atecc_crc.c`) -/

/-- One pass of the body of the inner loop of `calc_crc16_ccitt`:
the register after the bit of `byte` selected by the mask `shift_register`. -/
def crc_bit_step (byte shift_register crc_register : Nat) : Nat :=
  let polynom := 0x8005
  let data_bit := if byte &&& shift_register ≠ 0 then 1 else 0
  let crc_bit := (crc_register >>> 15) % 256
  let crc_register := (crc_register <<< 1) % 65536
  if data_bit ≠ crc_bit then crc_register ^^^ polynom else crc_register

/-- The inner loop `for (shift_register = 0x01; shift_register > 0x00u; shift_register <<= 1)`
of `calc_crc16_ccitt`, with `shift_register` an 8-bit value. `fuel` bounds the
number of passes; the loop leaves through its own condition after eight
passes (`crc_shift_loop_fuel`). -/
def crc_shift_loop : Nat → Nat → Nat → Nat → Nat
  | 0, _, _, crc_register => crc_register
  | fuel + 1, byte, shift_register, crc_register =>
    if shift_register > 0 then
      crc_shift_loop fuel byte ((shift_register <<< 1) % 256)
        (crc_bit_step byte shift_register crc_register)
    else crc_register

/-- The outer loop `for (counter = 0; counter < length; counter++)` of
`calc_crc16_ccitt`; the first argument is `length - counter`. -/
def crc_counter_loop : Nat → Nat → List Nat → Nat → Nat
  | 0, _, _, crc_register => crc_register
  | remaining + 1, counter, data, crc_register =>
    crc_counter_loop remaining (counter + 1) data
      (crc_shift_loop 8 (data.getD counter 0) 0x01 crc_register)

/-- The function `calc_crc16_ccitt(length, data, crc_le)`; the result is
`(crc_le[0], crc_le[1])`. -/
def calc_crc16_ccitt (length : Nat) (data : List Nat) : Nat × Nat :=
  let crc_register := crc_counter_loop length 0 data 0
  ((crc_register &&& 0x00FF) % 256, (crc_register >>> 8) % 256)

/-- The function `compute_crc(length, data, crc)`; its `length` parameter is a
`uint8_t`, so the argument is reduced modulo 256 on entry. -/
def compute_crc (length : Nat) (data : List Nat) : Nat × Nat :=
  calc_crc16_ccitt (length % 256) data

/-- The function `validate_crc(response, length)`. -/
def validate_crc (response : List Nat) (length : Nat) : Bool :=
  if length < 3 then false
  else
    let computed_crc := compute_crc (length - 2) response
    decide (computed_crc.1 = response.getD (length - 2) 0) &&
      decide (computed_crc.2 = response.getD (length - 1) 0)

/-! ### Reference algorithm of the specification -/

/-- Reference register update for one data bit, in the words of the
specification: take bit 15, shift left by one modulo `2 ^ 16`, and xor with
`0x8005` when the data bit differs from the old bit 15. -/
def ref_bit (byte : Nat) (reg : Nat) (i : Nat) : Nat :=
  let data_bit := byte.testBit i
  let crc_bit := reg.testBit 15
  let shifted := (2 * reg) % 2 ^ 16
  if data_bit ≠ crc_bit then shifted ^^^ 0x8005 else shifted

/-- Reference register update for one byte: its bits from least significant
to most significant. -/
def ref_byte (reg : Nat) (byte : Nat) : Nat :=
  (List.range 8).foldl (ref_bit byte) reg

/-- Reference 16-bit register for a byte sequence, starting from 0. -/
def ref_crc16 (bytes : List Nat) : Nat :=
  bytes.foldl ref_byte 0

/-- Little-endian encoding of a 16-bit register: low byte, then high byte. -/
def le_bytes (reg : Nat) : Nat × Nat :=
  (reg % 256, reg / 256 % 256)


/-! ## The I2C bus -/

/-- I2C address of the ATECC608 (`I2C_ADDR`). -/
def I2C_ADDR : Nat := 0x60

/-- Read command op-code (`OP_READ`). -/
def OP_READ : Nat := 0x02

/-- SHA command op-code (`OP_SHA`). -/
def OP_SHA : Nat := 0x47

/-- A transfer requested from the bus: the bytes handed to a write, or the
number of bytes asked of a read, with the target address. -/
inductive Event where
  | write (addr : Nat) (src : List Nat)
  | read (addr : Nat) (len : Nat)
  deriving DecidableEq, Repr

/-- The bus seen from the driver: the transfers requested so far, and the
behaviour of the SDK primitives. `write_ret` is the value a write returns;
`read_ret` is the value a read returns together with the bytes it stores at
the start of the destination buffer. Both may depend on the earlier
transfers, and both may be a byte count, a short count or a negative error
code. -/
structure Bus where
  trace : List Event
  write_ret : List Event → Nat → List Nat → Int
  read_ret : List Event → Nat → Nat → Int × List Nat

/-- The SDK primitive `i2c_write_blocking(I2C_PORT, addr, src, len, false)`,
where `src` holds the `len` bytes to send. -/
def i2c_write_blocking (bus : Bus) (addr : Nat) (src : List Nat) : Int × Bus :=
  (bus.write_ret bus.trace addr src,
    { bus with trace := bus.trace ++ [Event.write addr src] })

/-- The SDK primitive `i2c_read_blocking(I2C_PORT, addr, dst, len, false)`:
the returned value, the destination buffer afterwards (bytes that were not
delivered keep their prior contents), and the bus. -/
def i2c_read_blocking (bus : Bus) (addr : Nat) (dst : List Nat) (len : Nat) :
    Int × List Nat × Bus :=
  let r := bus.read_ret bus.trace addr len
  let got := r.2.take len
  (r.1, got ++ dst.drop got.length,
    { bus with trace := bus.trace ++ [Event.read addr len] })

/-- Conversion of a `size_t` to `int` on the 32-bit target. -/
def to_int (n : Nat) : Int :=
  if n % 2 ^ 32 < 2 ^ 31 then ((n % 2 ^ 32 : Nat) : Int) else ((n % 2 ^ 32 : Nat) : Int) - 2 ^ 32

/-- Conversion of an `int` to `size_t` on the 32-bit target. -/
def to_size_t (i : Int) : Nat :=
  (i % 2 ^ 32).toNat

/-! ## Protocol layer (`atecc_pico.c`) -/

/-- The function `i2c_read_blocking_safe(response, expected_length)`. The test
`res != expected_length` compares an `int` with a `size_t`, so `res` is
converted to `size_t` first. -/
def i2c_read_blocking_safe (bus : Bus) (response : List Nat) (expected_length : Nat) :
    Int × List Nat × Bus :=
  let r := i2c_read_blocking bus I2C_ADDR response expected_length
  if to_size_t r.1 ≠ expected_length then (-1, r.2) else (r.1, r.2)

/-- The function `wake_device()`. `wake_response` is the prior contents of the
uninitialised local array of the same name. -/
def wake_device (bus : Bus) (wake_response : List Nat) : Bool × Bus :=
  let data := 0x00
  let w := i2c_write_blocking bus 0x00 [data]
  let r := i2c_read_blocking w.2 I2C_ADDR wake_response 4
  let res := r.1
  let wake_response := r.2.1
  if res > 0 ∧ wake_response.getD 0 0 = 0x04 ∧ wake_response.getD 1 0 = 0x11 ∧
      wake_response.getD 2 0 = 0x33 ∧ wake_response.getD 3 0 = 0x43 then
    (true, r.2.2)
  else (false, r.2.2)

/-- The local array `command` of `send_command` before the CRC is stored:
length byte, opcode, two parameter bytes and the payload. -/
def command_body (opcode param1 param2 : Nat) (data : List Nat) (data_len : Nat) : List Nat :=
  [(0x07 + data_len) % 256, opcode, param1, param2 &&& 0xFF, (param2 >>> 8) &&& 0xFF] ++
    data.take data_len

/-- The local array `full_command` of `send_command`: the marker `0x03`, then
`command` with its CRC in the last two places. -/
def full_command (opcode param1 param2 : Nat) (data : List Nat) (data_len : Nat) : List Nat :=
  let command := command_body opcode param1 param2 data data_len
  let crc := calc_crc16_ccitt (5 + data_len) command
  0x03 :: (command ++ [crc.1, crc.2])

/-- The function `send_command(opcode, param1, param2, data, data_len)`. -/
def send_command (bus : Bus) (opcode param1 param2 : Nat) (data : List Nat) (data_len : Nat) :
    Bool × Bus :=
  let w := i2c_write_blocking bus I2C_ADDR (full_command opcode param1 param2 data data_len)
  (decide (w.1 ≥ 0), w.2)

/-- The function `get_response(buffer, length, full_response)`. `response` is
the prior contents of the uninitialised local array of the same name. -/
def get_response (bus : Bus) (response buffer : List Nat) (length : Nat) (full_response : Bool) :
    Bool × List Nat × Bus :=
  let read_length := if full_response then 7 else length + 1
  let r := i2c_read_blocking bus I2C_ADDR response read_length
  if r.1 ≠ to_int read_length then (false, buffer, r.2.2)
  else (true, (r.2.1.drop 1).take length ++ buffer.drop length, r.2.2)

/-- The function `send_idle_command()`; `!x` holds exactly when `x` is 0. -/
def send_idle_command (bus : Bus) : Bool × Bus :=
  let idle_cmd := 0x02
  let w := i2c_write_blocking bus I2C_ADDR [idle_cmd]
  if w.1 = 0 then (false, w.2) else (true, w.2)

/-- The loop of `map_random_to_range`, `for (int i = 0; i < 8; i++)`, on a
64-bit `random_value`; the first argument is `8 - i`. -/
def random_value_loop : Nat → Nat → List Nat → Nat → Nat
  | 0, _, _, random_value => random_value
  | remaining + 1, i, random_bytes, random_value =>
    random_value_loop remaining (i + 1) random_bytes
      (((random_value <<< 8) % 2 ^ 64) ||| random_bytes.getD i 0)

/-- The function `map_random_to_range(random_bytes, min, max)` on 64-bit
unsigned values. The operator `%` with a zero right operand has no defined
result in C; that case is `none`. -/
def map_random_to_range (random_bytes : List Nat) (min max : Nat) : Option Nat :=
  let random_value := random_value_loop 8 0 random_bytes 0
  let range := ((max + 2 ^ 64 - min) % 2 ^ 64 + 1) % 2 ^ 64
  if range = 0 then none
  else some ((min + random_value % range) % 2 ^ 64)

/-- The library function `strlen`: the number of bytes before the first zero
byte; a list without a zero byte is followed by the terminator. -/
def strlen : List Nat → Nat
  | [] => 0
  | c :: cs => if c = 0 then 0 else strlen cs + 1

/-- The loop `while (message_len - offset >= 64)` of `compute_sha256_hash`:
whether every Update command was sent, the final `offset`, and the bus. -/
def sha_update_loop (message : List Nat) (message_len offset : Nat) (bus : Bus) :
    Bool × Nat × Bus :=
  if message_len - offset ≥ 64 then
    let s := send_command bus OP_SHA 0x01 0x0000 (message.drop offset) 64
    if s.1 = false then (false, offset, s.2)
    else sha_update_loop message message_len (offset + 64) s.2
  else (true, offset, bus)
termination_by message_len - offset
decreasing_by omega

/-- The function `compute_sha256_hash(message)`. `response` is the prior
contents of the uninitialised local array of the same name. -/
def compute_sha256_hash (bus : Bus) (message response : List Nat) : Bool × Bus :=
  let message_len := strlen message
  let s := send_command bus OP_SHA 0x00 0x0000 [] 0
  if s.1 = false then (false, s.2)
  else
    let l := sha_update_loop message message_len 0 s.2
    if l.1 = false then (false, l.2.2)
    else
      let offset := l.2.1
      let e := send_command l.2.2 OP_SHA 0x02 ((message_len - offset) % 65536)
        (message.drop offset) (message_len - offset)
      if e.1 = false then (false, e.2)
      else
        let r := i2c_read_blocking_safe e.2 response 35
        if r.1 < 0 ∨ r.2.1.getD 0 0 ≠ 0x23 then (false, r.2.2)
        else if validate_crc r.2.1 35 = false then (false, r.2.2)
        else (true, r.2.2)

/-- The lock state reported by `check_lock_status`, one per message it prints. -/
inductive LockStatus where
  | FullyLocked
  | Unlocked
  | PartiallyLocked
  | UnknownState
  deriving DecidableEq, Repr

/-- The function `check_lock_status()`: the returned value, the lock state it
reports (none when it stops before classifying), and the bus. `response` is
the prior contents of the uninitialised local array of the same name. -/
def check_lock_status (bus : Bus) (response : List Nat) : Bool × Option LockStatus × Bus :=
  let expected_address := 0x15
  let s := send_command bus OP_READ 0x00 expected_address [] 0
  if s.1 = false then (false, none, s.2)
  else
    let r := i2c_read_blocking s.2 I2C_ADDR response 5
    if r.1 ≠ 5 then (false, none, r.2.2)
    else
      let lock_config := r.2.1.getD 3 0
      let lock_value := r.2.1.getD 4 0
      if lock_config = 0x00 ∧ lock_value = 0x00 then (true, some LockStatus.FullyLocked, r.2.2)
      else if lock_config = 0x55 ∧ lock_value = 0x55 then (true, some LockStatus.Unlocked, r.2.2)
      else if lock_config = 0x00 ∧ lock_value = 0x55 then
        (true, some LockStatus.PartiallyLocked, r.2.2)
      else (false, some LockStatus.UnknownState, r.2.2)

/-- A bus with an empty trace on which every write returns the number of bytes
handed to it and every read stores and returns nothing. -/
def quiet_bus : Bus :=
  { trace := [],
    write_ret := fun _ _ src => (src.length : Int),
    read_ret := fun _ _ _ => (0, []) }

/-- A bus with an empty trace whose writes return `w` and whose reads return
`r` after storing `bytes`. -/
def fixed_bus (w r : Int) (bytes : List Nat) : Bus :=
  { trace := [],
    write_ret := fun _ _ _ => w,
    read_ret := fun _ _ _ => (r, bytes) }


/-! ## CRC engine: the implementation and the reference agree -/

/-- Eight passes of the inner loop visit the masks 1, 2, 4, ..., 128 in order. -/
theorem crc_shift_loop_masks (byte crc : Nat) :
    crc_shift_loop 8 byte 0x01 crc =
      (List.range 8).foldl (fun reg i => crc_bit_step byte (2 ^ i) reg) crc := by
  simp [crc_shift_loop, List.range, List.range.loop, Nat.shiftLeft_eq]

/-- The inner loop leaves through its own condition: after eight passes the
8-bit mask is zero, so any larger bound on the passes gives the same result. -/
theorem crc_shift_loop_fuel (k byte crc : Nat) :
    crc_shift_loop (8 + k) byte 0x01 crc = crc_shift_loop 8 byte 0x01 crc := by
  have h0 : ∀ x, crc_shift_loop k byte 0 x = x := by
    intro x; cases k <;> simp [crc_shift_loop]
  have e : 8 + k = k + 1 + 1 + 1 + 1 + 1 + 1 + 1 + 1 := by omega
  rw [e]
  simp [crc_shift_loop, Nat.shiftLeft_eq, h0]

theorem ref_bit_lt (byte reg i : Nat) : ref_bit byte reg i < 2 ^ 16 := by
  unfold ref_bit
  have h : (2 * reg) % 2 ^ 16 < 2 ^ 16 := Nat.mod_lt _ (by norm_num)
  simp only
  split
  · exact Nat.xor_lt_two_pow h (by norm_num)
  · exact h

/-- One pass of the loop body is one reference bit update. -/
theorem crc_bit_step_eq_ref (byte crc i : Nat) (h : crc < 2 ^ 16) :
    crc_bit_step byte (2 ^ i) crc = ref_bit byte crc i := by
  unfold crc_bit_step ref_bit
  have hd : (byte &&& 2 ^ i ≠ 0) ↔ byte.testBit i = true := by
    rw [Nat.and_two_pow]
    cases byte.testBit i <;> simp
  have hs : (crc <<< 1) % 65536 = (2 * crc) % 2 ^ 16 := by
    rw [Nat.shiftLeft_eq]; norm_num [Nat.mul_comm]
  have hc : (crc >>> 15) % 256 = (crc.testBit 15).toNat := by
    rw [Nat.shiftRight_eq_div_pow, Nat.testBit_to_div_mod]
    have : crc / 2 ^ 15 < 2 := by
      apply Nat.div_lt_of_lt_mul; norm_num at h ⊢; omega
    interval_cases hq : crc / 2 ^ 15 <;> simp
  simp only [hs, hc]
  cases hb : byte.testBit i <;> cases hr : crc.testBit 15 <;> simp [hd, hb]

theorem foldl_ref_bit_lt (byte : Nat) (l : List Nat) (reg : Nat) (h : reg < 2 ^ 16) :
    l.foldl (ref_bit byte) reg < 2 ^ 16 := by
  induction l generalizing reg with
  | nil => simpa using h
  | cons i l ih => exact ih _ (ref_bit_lt byte reg i)

theorem ref_byte_lt (reg byte : Nat) (h : reg < 2 ^ 16) : ref_byte reg byte < 2 ^ 16 :=
  foldl_ref_bit_lt byte _ reg h

theorem foldl_crc_bit_step_eq (byte : Nat) (l : List Nat) (reg : Nat) (h : reg < 2 ^ 16) :
    l.foldl (fun reg i => crc_bit_step byte (2 ^ i) reg) reg = l.foldl (ref_bit byte) reg := by
  induction l generalizing reg with
  | nil => rfl
  | cons i l ih =>
    simp only [List.foldl_cons]
    rw [crc_bit_step_eq_ref byte reg i h]
    exact ih _ (ref_bit_lt byte reg i)

/-- The inner loop over one byte is the reference update for that byte. -/
theorem crc_shift_loop_eq_ref (byte crc : Nat) (h : crc < 2 ^ 16) :
    crc_shift_loop 8 byte 0x01 crc = ref_byte crc byte := by
  rw [crc_shift_loop_masks, foldl_crc_bit_step_eq byte _ crc h]
  rfl

theorem foldl_ref_byte_lt (l : List Nat) (reg : Nat) (h : reg < 2 ^ 16) :
    l.foldl ref_byte reg < 2 ^ 16 := by
  induction l generalizing reg with
  | nil => simpa using h
  | cons b l ih => exact ih _ (ref_byte_lt reg b h)

/-- The outer loop started at index `counter` is the reference fold over the
`remaining` bytes found there, as long as they lie inside `data`. -/
theorem crc_counter_loop_eq_ref (remaining : Nat) :
    ∀ (counter : Nat) (data : List Nat) (crc : Nat), crc < 2 ^ 16 →
      counter + remaining ≤ data.length →
      crc_counter_loop remaining counter data crc =
        ((data.drop counter).take remaining).foldl ref_byte crc := by
  induction remaining with
  | zero => intro counter data crc _ _; simp [crc_counter_loop]
  | succ n ih =>
    intro counter data crc h hlen
    have hc : counter < data.length := by omega
    rw [crc_counter_loop, crc_shift_loop_eq_ref _ _ h,
      ih (counter + 1) data _ (ref_byte_lt crc _ h) (by omega)]
    rw [List.drop_eq_getElem_cons hc, List.take_succ_cons, List.foldl_cons,
      List.getD_eq_getElem?_getD, List.getElem?_eq_getElem hc, Option.getD_some]

theorem le_bytes_of_register (reg : Nat) :
    ((reg &&& 0x00FF) % 256, (reg >>> 8) % 256) = le_bytes reg := by
  unfold le_bytes
  have h : reg &&& 0x00FF = reg % 2 ^ 8 := Nat.and_pow_two_sub_one_eq_mod reg 8
  rw [h, Nat.shiftRight_eq_div_pow]
  norm_num

/-- The checksum of the first `length` bytes of `data`, for `length` within
`data`, is the little-endian encoding of the reference register of those
bytes. -/
theorem calc_crc16_ccitt_take (length : Nat) (data : List Nat) (h : length ≤ data.length) :
    calc_crc16_ccitt length data = le_bytes (ref_crc16 (data.take length)) := by
  unfold calc_crc16_ccitt ref_crc16
  simp only
  rw [le_bytes_of_register, crc_counter_loop_eq_ref length 0 data 0 (by norm_num) (by omega)]
  simp

/-- The checksum reads only the first `length` bytes of `data`. -/
theorem calc_crc16_ccitt_append (length : Nat) (data rest : List Nat) (h : length ≤ data.length) :
    calc_crc16_ccitt length (data ++ rest) = calc_crc16_ccitt length data := by
  rw [calc_crc16_ccitt_take length (data ++ rest) (by simp; omega),
    calc_crc16_ccitt_take length data h, List.take_append_of_le_length h]

theorem calc_crc16_ccitt_lt (length : Nat) (data : List Nat) :
    (calc_crc16_ccitt length data).1 < 256 ∧ (calc_crc16_ccitt length data).2 < 256 := by
  unfold calc_crc16_ccitt
  exact ⟨Nat.mod_lt _ (by norm_num), Nat.mod_lt _ (by norm_num)⟩

/-- C2. For every byte sequence, `calc_crc16_ccitt` returns the low byte and
then the high byte of the 16-bit register of the reference algorithm (start
at 0; per byte, bits from least to most significant; take bit 15, shift left
modulo 2^16, xor with 0x8005 when the data bit differs from the old bit 15).
The empty input and five zero bytes both give (0x00, 0x00). -/
theorem calc_crc16_ccitt_refines_reference :
    (∀ data : List Nat, calc_crc16_ccitt data.length data = le_bytes (ref_crc16 data)) ∧
      calc_crc16_ccitt 0 [] = (0x00, 0x00) ∧
      calc_crc16_ccitt 5 [0, 0, 0, 0, 0] = (0x00, 0x00) ∧
      le_bytes (ref_crc16 [0, 0, 0, 0, 0]) = (0x00, 0x00) := by
  refine ⟨fun data => ?_, by decide!, by decide!, by decide!⟩
  rw [calc_crc16_ccitt_take data.length data (Nat.le_refl _), List.take_length]


/-! ## Response validation -/

theorem validate_crc_eq (response : List Nat) (length : Nat) (h3 : 3 ≤ length) :
    validate_crc response length =
      (decide ((compute_crc (length - 2) response).1 = response.getD (length - 2) 0) &&
        decide ((compute_crc (length - 2) response).2 = response.getD (length - 1) 0)) := by
  unfold validate_crc
  rw [if_neg (by omega)]

/-- Round trip for bodies that fit the 8-bit length of `compute_crc`: a body of
at most 255 bytes followed by its checksum is accepted. -/
theorem validate_crc_roundtrip_le_255 (b : List Nat) (hb : b.length ≤ 255) (hne : b ≠ []) :
    validate_crc (b ++ [(calc_crc16_ccitt b.length b).1, (calc_crc16_ccitt b.length b).2])
      (b.length + 2) = true := by
  have hpos : 0 < b.length := List.length_pos.mpr hne
  rw [validate_crc_eq _ _ (by omega)]
  have e1 : b.length + 2 - 2 = b.length := by omega
  have e2 : b.length + 2 - 1 = b.length + 1 := by omega
  unfold compute_crc
  rw [e1, e2, Nat.mod_eq_of_lt (by omega), calc_crc16_ccitt_append _ _ _ (Nat.le_refl _)]
  rw [List.getD_append_right _ _ _ _ (Nat.le_refl _),
    List.getD_append_right _ _ _ _ (Nat.le_succ _)]
  simp

theorem foldl_ref_byte_zeros (k : Nat) : (List.replicate k 0).foldl ref_byte 0 = 0 := by
  induction k with
  | zero => rfl
  | succ k ih =>
    rw [List.replicate_succ, List.foldl_cons, show ref_byte 0 0 = 0 by decide, ih]

/-- Leading zero bytes leave the register at 0. -/
theorem calc_crc16_ccitt_leading_zeros (k : Nat) (l : List Nat) :
    calc_crc16_ccitt (k + l.length) (List.replicate k 0 ++ l) =
      calc_crc16_ccitt l.length l := by
  rw [calc_crc16_ccitt_take _ _ (by simp), calc_crc16_ccitt_take _ _ (Nat.le_refl _)]
  have e : (List.replicate k 0 ++ l).take (k + l.length) = List.replicate k 0 ++ l := by
    apply List.take_of_length_le; simp
  rw [e, List.take_length]
  unfold ref_crc16
  rw [List.foldl_append, foldl_ref_byte_zeros]

/-- C3, at a 256-byte body. The body is 255 zero bytes followed by the byte
0x01; appending its own checksum and validating the 258 bytes returns false,
because `compute_crc` receives the length 256 as the 8-bit value 0. -/
theorem validate_crc_roundtrip_fails_at_256 :
    (List.replicate 255 0 ++ [1]).length = 256 ∧
    validate_crc
      ((List.replicate 255 0 ++ [1]) ++
        [(calc_crc16_ccitt 256 (List.replicate 255 0 ++ [1])).1,
         (calc_crc16_ccitt 256 (List.replicate 255 0 ++ [1])).2])
      258 = false := by
  have h : calc_crc16_ccitt 256 (List.replicate 255 0 ++ [1]) = calc_crc16_ccitt 1 [1] :=
    calc_crc16_ccitt_leading_zeros 255 [1]
  have h1 : calc_crc16_ccitt 1 [1] = (0x03, 0x83) := by decide!
  rw [h, h1]
  exact ⟨by decide!, by decide!⟩

/-- C4. `validate_crc` returns false for every length below 3; for a buffer
of 3 to 257 bytes whose last two bytes are not the checksum of the bytes
before them it returns false; and replacing either checksum byte of an
accepted 3-byte buffer by a different value gives a rejected buffer. -/
theorem validate_crc_rejects (response : List Nat) (length a c0 c1 x : Nat) :
    (length < 3 → validate_crc response length = false) ∧
    (3 ≤ response.length → response.length ≤ 257 →
      (response.getD (response.length - 2) 0, response.getD (response.length - 1) 0) ≠
        calc_crc16_ccitt (response.length - 2) response →
      validate_crc response response.length = false) ∧
    (validate_crc [a, c0, c1] 3 = true → x ≠ c0 → validate_crc [a, x, c1] 3 = false) ∧
    (validate_crc [a, c0, c1] 3 = true → x ≠ c1 → validate_crc [a, c0, x] 3 = false) := by
  refine ⟨?_, ?_, ?_, ?_⟩
  · intro h
    unfold validate_crc
    rw [if_pos h]
  · intro h3 h257 hne
    rw [validate_crc_eq _ _ h3]
    unfold compute_crc
    rw [Nat.mod_eq_of_lt (by omega)]
    by_contra hc
    simp only [Bool.not_eq_false, Bool.and_eq_true, decide_eq_true_eq] at hc
    exact hne (Prod.ext hc.1.symm hc.2.symm)
  · intro hacc hx
    have e : calc_crc16_ccitt 1 [a, x, c1] = calc_crc16_ccitt 1 [a, c0, c1] :=
      (calc_crc16_ccitt_append 1 [a] [x, c1] (by simp)).trans
        (calc_crc16_ccitt_append 1 [a] [c0, c1] (by simp)).symm
    rw [validate_crc_eq _ _ (by norm_num)] at hacc ⊢
    unfold compute_crc at hacc ⊢
    simp only [Bool.and_eq_true, decide_eq_true_eq, Bool.and_eq_false_imp] at hacc ⊢
    intro h1
    rw [e] at h1
    simp at hacc h1
    omega
  · intro hacc hx
    have e : calc_crc16_ccitt 1 [a, c0, x] = calc_crc16_ccitt 1 [a, c0, c1] :=
      (calc_crc16_ccitt_append 1 [a] [c0, x] (by simp)).trans
        (calc_crc16_ccitt_append 1 [a] [c0, c1] (by simp)).symm
    rw [validate_crc_eq _ _ (by norm_num)] at hacc ⊢
    unfold compute_crc at hacc ⊢
    simp only [Bool.and_eq_true, decide_eq_true_eq, Bool.and_eq_false_imp] at hacc ⊢
    intro _
    rw [e]
    simp at hacc ⊢
    omega

/-- Instance of C4: a 2-byte buffer, a 3-byte buffer with a wrong checksum,
and the accepted buffer 07 43 82 with either checksum byte replaced. -/
theorem validate_crc_rejects_witness :
    validate_crc [0x07, 0x43] 2 = false ∧
    validate_crc [0x07, 0x43, 0x83] 3 = false ∧
    validate_crc [0x07, 0x44, 0x82] 3 = false ∧
    validate_crc [0x07, 0x43, 0x00] 3 = false :=
  ⟨(validate_crc_rejects [0x07, 0x43] 2 0 0 0 0).1 (by decide),
   (validate_crc_rejects [0x07, 0x43, 0x83] 3 0 0 0 0).2.1 (by decide) (by decide) (by decide!),
   (validate_crc_rejects [] 0 0x07 0x43 0x82 0x44).2.2.1 (by decide!) (by decide),
   (validate_crc_rejects [] 0 0x07 0x43 0x82 0x00).2.2.2 (by decide!) (by decide)⟩


/-! ## Command framing -/

theorem command_body_length (opcode param1 param2 : Nat) (payload : List Nat) :
    (command_body opcode param1 param2 payload payload.length).length = 5 + payload.length := by
  simp [command_body]; omega

theorem full_command_length (opcode param1 param2 : Nat) (payload : List Nat) :
    (full_command opcode param1 param2 payload payload.length).length = 8 + payload.length := by
  simp [full_command, command_body_length]; omega

/-- The bus after `send_command`: one write of `full_command` to `I2C_ADDR`
is added to the trace, whatever the arguments. -/
theorem send_command_trace (bus : Bus) (opcode param1 param2 : Nat) (data : List Nat)
    (data_len : Nat) :
    (send_command bus opcode param1 param2 data data_len).2.trace =
      bus.trace ++ [Event.write I2C_ADDR (full_command opcode param1 param2 data data_len)] := by
  simp [send_command, i2c_write_blocking]

/-- C1. For a payload of n ≤ 248 bytes the bytes `send_command` hands to the
bus write are 0x03, 7+n, opcode, param1, the low and the high byte of param2,
the payload, and the two bytes of `calc_crc16_ccitt` over the 5+n bytes from
the length byte to the end of the payload; the length byte is the number of
bytes written minus one. -/
theorem send_command_frame (bus : Bus) (opcode param1 param2 : Nat) (payload : List Nat)
    (hn : payload.length ≤ 248) (hp : param2 < 65536) :
    (send_command bus opcode param1 param2 payload payload.length).2.trace =
      bus.trace ++ [Event.write I2C_ADDR
        ([0x03, 7 + payload.length, opcode, param1, param2 &&& 0xFF, param2 >>> 8] ++ payload ++
          [(calc_crc16_ccitt (5 + payload.length)
              ([7 + payload.length, opcode, param1, param2 &&& 0xFF, param2 >>> 8] ++ payload)).1,
           (calc_crc16_ccitt (5 + payload.length)
              ([7 + payload.length, opcode, param1, param2 &&& 0xFF, param2 >>> 8] ++ payload)).2])] ∧
    ([0x03, 7 + payload.length, opcode, param1, param2 &&& 0xFF, param2 >>> 8] ++ payload ++
          [(calc_crc16_ccitt (5 + payload.length)
              ([7 + payload.length, opcode, param1, param2 &&& 0xFF, param2 >>> 8] ++ payload)).1,
           (calc_crc16_ccitt (5 + payload.length)
              ([7 + payload.length, opcode, param1, param2 &&& 0xFF, param2 >>> 8] ++ payload)).2]).length
        - 1 = 7 + payload.length := by
  have h1 : (0x07 + payload.length) % 256 = 7 + payload.length := Nat.mod_eq_of_lt (by omega)
  have h2 : (param2 >>> 8) &&& 0xFF = param2 >>> 8 := by
    have hlt : param2 >>> 8 < 2 ^ 8 := by
      rw [Nat.shiftRight_eq_div_pow]
      apply Nat.div_lt_of_lt_mul; norm_num; omega
    exact Nat.and_pow_two_sub_one_of_lt_two_pow hlt
  refine ⟨?_, by simp; omega⟩
  rw [send_command_trace]
  simp only [full_command, command_body, h1, h2, List.take_length]
  simp

/-- Instance of C1: the Start command of the SHA sequence on a quiet bus. -/
theorem send_command_frame_witness :
    (send_command quiet_bus 0x47 0x00 0x0000 [] 0).2.trace =
      [Event.write 0x60 [0x03, 0x07, 0x47, 0x00, 0x00, 0x00, 0x2E, 0x85]] :=
  (send_command_frame quiet_bus 0x47 0x00 0x0000 [] (by decide) (by decide)).1.trans
    (by decide!)

/-- C6, as stated, fails: a payload of 249 bytes (5 + 249 + 2 = 256 > 255) is
not refused. On a bus whose writes succeed `send_command` returns true and
hands one frame of 257 bytes, with length byte 0, to the bus. -/
theorem send_command_accepts_oversized_payload :
    5 + 249 + 2 > 255 ∧
    (send_command quiet_bus 0x47 0x01 0x0000 (List.replicate 249 0) 249).1 = true ∧
    ∃ frame, (send_command quiet_bus 0x47 0x01 0x0000 (List.replicate 249 0) 249).2.trace =
        [Event.write I2C_ADDR frame] ∧ frame.length = 257 ∧ frame.getD 1 0 = 0 := by
  refine ⟨by decide, by decide!,
    full_command 0x47 0x01 0x0000 (List.replicate 249 0) 249, ?_, by decide!, by decide!⟩
  rw [send_command_trace]
  rfl

/-- C6, amended. `send_command` makes no payload-size check: for every payload
of n bytes, also when 5 + n + 2 > 255, it hands exactly one frame of 8 + n
bytes to the bus write, and it returns true when that write reports the full
count 8 + n. -/
theorem send_command_no_size_check (bus : Bus) (opcode param1 param2 : Nat)
    (payload : List Nat)
    (hw : bus.write_ret bus.trace I2C_ADDR
        (full_command opcode param1 param2 payload payload.length) =
      ((8 + payload.length : Nat) : Int)) :
    (send_command bus opcode param1 param2 payload payload.length).2.trace =
      bus.trace ++
        [Event.write I2C_ADDR (full_command opcode param1 param2 payload payload.length)] ∧
    (full_command opcode param1 param2 payload payload.length).length = 8 + payload.length ∧
    (send_command bus opcode param1 param2 payload payload.length).1 = true := by
  refine ⟨send_command_trace _ _ _ _ _ _, full_command_length _ _ _ _, ?_⟩
  simp only [send_command, i2c_write_blocking, hw, decide_eq_true_eq]
  exact Int.natCast_nonneg _

/-- Instance of the amended C6 at a payload of 300 bytes. -/
theorem send_command_no_size_check_witness :
    (full_command 0x47 0x01 0x0000 (List.replicate 300 7) (List.replicate 300 7).length).length
        = 8 + (List.replicate 300 7).length ∧
    (send_command quiet_bus 0x47 0x01 0x0000 (List.replicate 300 7)
      (List.replicate 300 7).length).1 = true :=
  (send_command_no_size_check quiet_bus 0x47 0x01 0x0000 (List.replicate 300 7)
    (congrArg (fun n : Nat => (n : Int))
      (full_command_length 0x47 0x01 0x0000 (List.replicate 300 7)))).2

/-! ## Handling of the value returned by the bus -/

/-- C7, at two failing inputs. A write that returns the error code -2 makes
`send_idle_command` return true, and a write that returns the short count 3
for the 8-byte frame of a Read command makes `send_command` return true. -/
theorem write_wrappers_accept_failed_write :
    (i2c_write_blocking (fixed_bus (-2) 0 []) I2C_ADDR [0x02]).1 = -2 ∧
    (send_idle_command (fixed_bus (-2) 0 [])).1 = true ∧
    (i2c_write_blocking (fixed_bus 3 0 []) I2C_ADDR (full_command OP_READ 0x00 0x0000 [] 0)).1
      = 3 ∧
    (full_command OP_READ 0x00 0x0000 [] 0).length = 8 ∧
    (send_command (fixed_bus 3 0 []) OP_READ 0x00 0x0000 [] 0).1 = true := by
  refine ⟨by decide, by decide, by decide, by decide, by decide⟩

/-- The value `send_command` returns: true exactly when the write returned a
non-negative value. -/
theorem send_command_ret (bus : Bus) (opcode param1 param2 : Nat) (data : List Nat)
    (data_len : Nat) :
    (send_command bus opcode param1 param2 data data_len).1 = true ↔
      0 ≤ bus.write_ret bus.trace I2C_ADDR (full_command opcode param1 param2 data data_len) := by
  simp [send_command, i2c_write_blocking]

/-- The value `send_idle_command` returns: false exactly when the write
returned 0. -/
theorem send_idle_command_ret (bus : Bus) :
    (send_idle_command bus).1 = false ↔ bus.write_ret bus.trace I2C_ADDR [0x02] = 0 := by
  unfold send_idle_command i2c_write_blocking
  simp only
  split <;> simp_all

/-- The value `get_response` returns: true exactly when the read returned the
requested read length. -/
theorem get_response_ret (bus : Bus) (response buffer : List Nat) (length : Nat)
    (full_response : Bool) :
    (get_response bus response buffer length full_response).1 = true ↔
      (bus.read_ret bus.trace I2C_ADDR (if full_response then 7 else length + 1)).1 =
        to_int (if full_response then 7 else length + 1) := by
  unfold get_response i2c_read_blocking
  simp only
  by_cases h : (bus.read_ret bus.trace I2C_ADDR (if full_response then 7 else length + 1)).1 =
      to_int (if full_response then 7 else length + 1)
  · simp [h]
  · simp [h]

/-! ## Wake handshake -/

/-- C8, at a failing input. The read reports 2 bytes and stores 04 11; the
local array held 33 43 in its last two places before the call. `wake_device`
returns true although only 2 of the 4 requested bytes were delivered. -/
theorem wake_device_accepts_short_read :
    (i2c_read_blocking (fixed_bus 1 2 [0x04, 0x11]) I2C_ADDR [0x00, 0x00, 0x33, 0x43] 4).1 = 2 ∧
    (wake_device (fixed_bus 1 2 [0x04, 0x11]) [0x00, 0x00, 0x33, 0x43]).1 = true := by
  refine ⟨by decide, by decide⟩

/-- The value `wake_device` returns: true exactly when the read returned a
positive value and the array then holds 04 11 33 43. -/
theorem wake_device_ret (bus : Bus) (wake_response : List Nat) :
    (wake_device bus wake_response).1 = true ↔
      0 < (i2c_read_blocking (i2c_write_blocking bus 0x00 [0x00]).2 I2C_ADDR wake_response 4).1 ∧
      ((i2c_read_blocking (i2c_write_blocking bus 0x00 [0x00]).2 I2C_ADDR
          wake_response 4).2.1.getD 0 0 = 0x04 ∧
        (i2c_read_blocking (i2c_write_blocking bus 0x00 [0x00]).2 I2C_ADDR
          wake_response 4).2.1.getD 1 0 = 0x11 ∧
        (i2c_read_blocking (i2c_write_blocking bus 0x00 [0x00]).2 I2C_ADDR
          wake_response 4).2.1.getD 2 0 = 0x33 ∧
        (i2c_read_blocking (i2c_write_blocking bus 0x00 [0x00]).2 I2C_ADDR
          wake_response 4).2.1.getD 3 0 = 0x43) := by
  unfold wake_device
  simp only
  split
  · next h => simpa using h
  · next h => simpa using h


/-! ## Range mapping -/

/-- The loop of `map_random_to_range` folds the bytes it reads, most
significant first, into the register, as long as no bit is shifted out. -/
theorem random_value_loop_eq (n : Nat) :
    ∀ (i : Nat) (random_bytes : List Nat) (v : Nat), n ≤ 8 → v < 2 ^ (64 - 8 * n) →
      (∀ b ∈ random_bytes, b < 256) → i + n ≤ random_bytes.length →
      random_value_loop n i random_bytes v =
        ((random_bytes.drop i).take n).foldl (fun v b => v * 256 + b) v := by
  induction n with
  | zero => intro i random_bytes v _ _ _ _; simp [random_value_loop]
  | succ n ih =>
    intro i random_bytes v hn hv hb hlen
    have hi : i < random_bytes.length := by omega
    have hbi : random_bytes[i] < 256 := hb _ (List.getElem_mem hi)
    have hpow : 2 ^ (64 - 8 * (n + 1)) * 2 ^ 8 = 2 ^ (64 - 8 * n) := by
      rw [← Nat.pow_add]; congr 1; omega
    have hle : 2 ^ (64 - 8 * n) ≤ 2 ^ 64 := Nat.pow_le_pow_right (by norm_num) (by omega)
    have hv256 : v * 256 + random_bytes[i] < 2 ^ (64 - 8 * n) := by
      rw [← hpow]; norm_num at hv ⊢; omega
    have hstep : ((v <<< 8) % 2 ^ 64) ||| random_bytes.getD i 0 = v * 256 + random_bytes[i] := by
      rw [List.getD_eq_getElem?_getD, List.getElem?_eq_getElem hi, Option.getD_some,
        Nat.shiftLeft_eq, Nat.mod_eq_of_lt (by norm_num at hv256 hle ⊢; omega), Nat.mul_comm v,
        ← Nat.mul_add_lt_is_or (by norm_num; exact hbi)]
    rw [random_value_loop, hstep, ih (i + 1) random_bytes _ (by omega) hv256 hb (by omega),
      List.drop_eq_getElem_cons hi, List.take_succ_cons, List.foldl_cons]

/-- Outside the full range, `map_random_to_range` on 8 bytes and
`min ≤ max < 2 ^ 64` with `max - min + 1 < 2 ^ 64` returns
`min + V mod (max - min + 1)`, with V the big-endian value of the bytes, and
the result lies between `min` and `max`. -/
theorem map_random_to_range_below_full_range (random_bytes : List Nat) (min max : Nat)
    (hlen : random_bytes.length = 8) (hb : ∀ b ∈ random_bytes, b < 256)
    (hmm : min ≤ max) (hmax : max < 2 ^ 64) (hr : max - min + 1 < 2 ^ 64) :
    map_random_to_range random_bytes min max =
      some (min + random_bytes.foldl (fun v b => v * 256 + b) 0 % (max - min + 1)) ∧
    min ≤ min + random_bytes.foldl (fun v b => v * 256 + b) 0 % (max - min + 1) ∧
    min + random_bytes.foldl (fun v b => v * 256 + b) 0 % (max - min + 1) ≤ max := by
  have hV : random_value_loop 8 0 random_bytes 0 =
      random_bytes.foldl (fun v b => v * 256 + b) 0 := by
    rw [random_value_loop_eq 8 0 random_bytes 0 (Nat.le_refl _) (by norm_num) hb (by omega)]
    rw [List.drop_zero, List.take_of_length_le (by omega)]
  have hrange : ((max + 2 ^ 64 - min) % 2 ^ 64 + 1) % 2 ^ 64 = max - min + 1 := by
    have e : max + 2 ^ 64 - min = (max - min) + 2 ^ 64 := by omega
    rw [e, Nat.add_mod_right, Nat.mod_eq_of_lt (show max - min < 2 ^ 64 by omega),
      Nat.mod_eq_of_lt hr]
  have hmod : random_bytes.foldl (fun v b => v * 256 + b) 0 % (max - min + 1) < max - min + 1 :=
    Nat.mod_lt _ (by omega)
  refine ⟨?_, by omega, by omega⟩
  unfold map_random_to_range
  simp only [hV, hrange]
  rw [if_neg (by omega), Nat.mod_eq_of_lt (by omega)]

/-- C9, at a failing input and at the vector of the specification. With
`min = 0` and `max = 2 ^ 64 - 1` the modulus `max - min + 1` wraps to 0 and the
remainder has no defined value, where the claim asks for V; for eight 0xFF
bytes with `min = 100` and `max = 65535` the result is
`100 + (0xFFFFFFFFFFFFFFFF mod 65436)`. -/
theorem map_random_to_range_full_range_undefined :
    map_random_to_range [0x01, 0x02, 0x03, 0x04, 0x05, 0x06, 0x07, 0x08] 0 (2 ^ 64 - 1) = none ∧
    map_random_to_range [0xFF, 0xFF, 0xFF, 0xFF, 0xFF, 0xFF, 0xFF, 0xFF] 100 65535 =
      some (100 + 0xFFFFFFFFFFFFFFFF % 65436) := by
  exact ⟨by decide, by decide⟩

/-! ## Lock status -/

/-- C10. When the command write is taken as sent and the 5-byte read returns
5, `check_lock_status` classifies bytes 3 and 4 of the response by exact
value: (0x00,0x00) FullyLocked, (0x55,0x55) Unlocked, (0x00,0x55)
PartiallyLocked, each with result true; every other pair, such as (0x12,0x34)
and (0x55,0x00), UnknownState with result false. -/
theorem check_lock_status_classifies (bus : Bus) (response : List Nat)
    (lock_config lock_value : Nat)
    (hw : (send_command bus OP_READ 0x00 0x15 [] 0).1 = true)
    (hr : (i2c_read_blocking (send_command bus OP_READ 0x00 0x15 [] 0).2
      I2C_ADDR response 5).1 = 5)
    (h3 : (i2c_read_blocking (send_command bus OP_READ 0x00 0x15 [] 0).2
      I2C_ADDR response 5).2.1.getD 3 0 = lock_config)
    (h4 : (i2c_read_blocking (send_command bus OP_READ 0x00 0x15 [] 0).2
      I2C_ADDR response 5).2.1.getD 4 0 = lock_value) :
    ((lock_config, lock_value) = (0x00, 0x00) →
      (check_lock_status bus response).1 = true ∧
      (check_lock_status bus response).2.1 = some LockStatus.FullyLocked) ∧
    ((lock_config, lock_value) = (0x55, 0x55) →
      (check_lock_status bus response).1 = true ∧
      (check_lock_status bus response).2.1 = some LockStatus.Unlocked) ∧
    ((lock_config, lock_value) = (0x00, 0x55) →
      (check_lock_status bus response).1 = true ∧
      (check_lock_status bus response).2.1 = some LockStatus.PartiallyLocked) ∧
    ((lock_config, lock_value) ≠ (0x00, 0x00) → (lock_config, lock_value) ≠ (0x55, 0x55) →
      (lock_config, lock_value) ≠ (0x00, 0x55) →
      (check_lock_status bus response).1 = false ∧
      (check_lock_status bus response).2.1 = some LockStatus.UnknownState) ∧
    ((lock_config, lock_value) = (0x12, 0x34) ∨ (lock_config, lock_value) = (0x55, 0x00) →
      (check_lock_status bus response).1 = false ∧
      (check_lock_status bus response).2.1 = some LockStatus.UnknownState) := by
  have key : check_lock_status bus response =
      if lock_config = 0x00 ∧ lock_value = 0x00 then
        (true, some LockStatus.FullyLocked, (i2c_read_blocking
          (send_command bus OP_READ 0x00 0x15 [] 0).2 I2C_ADDR response 5).2.2)
      else if lock_config = 0x55 ∧ lock_value = 0x55 then
        (true, some LockStatus.Unlocked, (i2c_read_blocking
          (send_command bus OP_READ 0x00 0x15 [] 0).2 I2C_ADDR response 5).2.2)
      else if lock_config = 0x00 ∧ lock_value = 0x55 then
        (true, some LockStatus.PartiallyLocked, (i2c_read_blocking
          (send_command bus OP_READ 0x00 0x15 [] 0).2 I2C_ADDR response 5).2.2)
      else (false, some LockStatus.UnknownState, (i2c_read_blocking
          (send_command bus OP_READ 0x00 0x15 [] 0).2 I2C_ADDR response 5).2.2) := by
    unfold check_lock_status
    simp only [hw, hr, h3, h4]
    simp
  rw [key]
  refine ⟨?_, ?_, ?_, ?_, ?_⟩
  · intro h; simp only [Prod.mk.injEq] at h; simp [h.1, h.2]
  · intro h; simp only [Prod.mk.injEq] at h; simp [h.1, h.2]
  · intro h; simp only [Prod.mk.injEq] at h; simp [h.1, h.2]
  · intro h1 h2 h3
    simp only [ne_eq, Prod.mk.injEq] at h1 h2 h3
    simp [h1, h2, h3]
  · intro h
    rcases h with h | h <;> simp only [Prod.mk.injEq] at h <;> simp [h.1, h.2]

/-- Instance of C10: the response 07 00 00 55 00 gives the pair (0x55, 0x00),
reported as UnknownState with result false. -/
theorem check_lock_status_classifies_witness :
    (check_lock_status (fixed_bus 8 5 [0x07, 0x00, 0x00, 0x55, 0x00]) [0, 0, 0, 0, 0]).1 = false ∧
    (check_lock_status (fixed_bus 8 5 [0x07, 0x00, 0x00, 0x55, 0x00]) [0, 0, 0, 0, 0]).2.1 =
      some LockStatus.UnknownState :=
  (check_lock_status_classifies (fixed_bus 8 5 [0x07, 0x00, 0x00, 0x55, 0x00]) [0, 0, 0, 0, 0]
    0x55 0x00 (by decide) (by decide) (by decide) (by decide)).2.2.2.2 (Or.inr rfl)


/-! ## Streaming hash -/

theorem strlen_eq_length (s : List Nat) (h : ∀ c ∈ s, c ≠ 0) : strlen s = s.length := by
  induction s with
  | nil => rfl
  | cons c cs ih =>
    have hc : c ≠ 0 := h c (List.mem_cons_self c cs)
    have hcs : ∀ d ∈ cs, d ≠ 0 := fun d hd => h d (List.mem_cons_of_mem c hd)
    simp [strlen, hc, ih hcs]

/-- Only the first `data_len` bytes behind the payload pointer enter the frame. -/
theorem full_command_take (opcode param1 param2 : Nat) (data : List Nat) (data_len : Nat) :
    full_command opcode param1 param2 data data_len =
      full_command opcode param1 param2 (data.take data_len) data_len := by
  simp [full_command, command_body, List.take_take]

theorem send_command_write_ret (bus : Bus) (opcode param1 param2 : Nat) (data : List Nat)
    (data_len : Nat) :
    (send_command bus opcode param1 param2 data data_len).2.write_ret = bus.write_ret := rfl

theorem send_command_ok (bus : Bus) (opcode param1 param2 : Nat) (data : List Nat)
    (data_len : Nat)
    (hbus : ∀ trace addr src, bus.write_ret trace addr src = ((src.length : Nat) : Int)) :
    (send_command bus opcode param1 param2 data data_len).1 = true := by
  rw [send_command_ret, hbus]
  exact Int.natCast_nonneg _

theorem i2c_read_blocking_safe_trace (bus : Bus) (response : List Nat) (expected_length : Nat) :
    (i2c_read_blocking_safe bus response expected_length).2.2.trace =
      bus.trace ++ [Event.read I2C_ADDR expected_length] := by
  unfold i2c_read_blocking_safe
  simp only
  split <;> rfl

/-- The Update loop, on a bus whose writes all succeed, started at `offset`
with `k` whole blocks left: it sends one Update command per block, each with a
64-byte payload, the payloads in message order, and stops at
`offset + 64 * k`. -/
theorem sha_update_loop_blocks (message : List Nat) (k : Nat) :
    ∀ (offset : Nat) (bus : Bus),
      (∀ trace addr src, bus.write_ret trace addr src = ((src.length : Nat) : Int)) →
      offset + 64 * k ≤ message.length → message.length - (offset + 64 * k) < 64 →
      ∃ blocks : List (List Nat),
        blocks.length = k ∧ (∀ b ∈ blocks, b.length = 64) ∧
        blocks.flatten ++ message.drop (offset + 64 * k) = message.drop offset ∧
        (sha_update_loop message message.length offset bus).1 = true ∧
        (sha_update_loop message message.length offset bus).2.1 = offset + 64 * k ∧
        (sha_update_loop message message.length offset bus).2.2.trace =
          bus.trace ++
            blocks.map (fun b => Event.write I2C_ADDR (full_command OP_SHA 0x01 0x0000 b 64)) ∧
        (sha_update_loop message message.length offset bus).2.2.write_ret = bus.write_ret := by
  induction k with
  | zero =>
    intro offset bus _ _ hlt
    refine ⟨[], rfl, by simp, by simp, ?_⟩
    rw [sha_update_loop, if_neg (by omega)]
    simp
  | succ k ih =>
    intro offset bus hbus hle hlt
    have hbus1 : ∀ trace addr src,
        (send_command bus OP_SHA 0x01 0x0000 (message.drop offset) 64).2.write_ret trace addr src =
          ((src.length : Nat) : Int) := by
      intro trace addr src
      rw [send_command_write_ret]; exact hbus trace addr src
    obtain ⟨blocks, hlen, h64, hjoin, hok, hoff, htrace, hwr⟩ :=
      ih (offset + 64) (send_command bus OP_SHA 0x01 0x0000 (message.drop offset) 64).2 hbus1
        (by omega) (by omega)
    have e : offset + 64 + 64 * k = offset + 64 * (k + 1) := by omega
    have hb0 : ((message.drop offset).take 64).length = 64 := by
      rw [List.length_take, List.length_drop]; omega
    refine ⟨(message.drop offset).take 64 :: blocks, by simp [hlen], ?_, ?_, ?_⟩
    · intro b hb
      rcases List.mem_cons.mp hb with h | h
      · rw [h]; exact hb0
      · exact h64 b h
    · rw [List.flatten_cons, List.append_assoc, ← e, hjoin, ← List.drop_drop,
        List.take_append_drop]
    · rw [sha_update_loop, if_pos (by omega), if_neg (by simp [send_command_ok _ _ _ _ _ _ hbus])]
      refine ⟨hok, by rw [hoff, e], ?_, ?_⟩
      · rw [htrace, send_command_trace, full_command_take]
        simp
      · rw [hwr, send_command_write_ret]

/-- C5. On a bus whose writes all succeed, `compute_sha256_hash` on a message
of length L sends one Start command (opcode 0x47, param1 0x00, no payload),
then floor(L/64) Update commands (param1 0x01) of 64 payload bytes each, then
one End command (param1 0x02) whose payload has L mod 64 bytes and whose
param2 is L mod 64; the Update payloads followed by the End payload are the
message, and the End payload is empty when L is a multiple of 64. After the
End command only the 35-byte response read follows. -/
theorem compute_sha256_hash_commands (bus : Bus) (message response : List Nat)
    (hstr : ∀ c ∈ message, c ≠ 0)
    (hbus : ∀ trace addr src, bus.write_ret trace addr src = ((src.length : Nat) : Int)) :
    ∃ (blocks : List (List Nat)) (last : List Nat),
      blocks.length = message.length / 64 ∧ (∀ b ∈ blocks, b.length = 64) ∧
      last.length = message.length % 64 ∧ blocks.flatten ++ last = message ∧
      (message.length % 64 = 0 → last = []) ∧
      (compute_sha256_hash bus message response).2.trace =
        bus.trace ++ [Event.write I2C_ADDR (full_command 0x47 0x00 0x0000 [] 0)] ++
          blocks.map (fun b => Event.write I2C_ADDR (full_command 0x47 0x01 0x0000 b 64)) ++
          [Event.write I2C_ADDR
              (full_command 0x47 0x02 (message.length % 64) last (message.length % 64)),
            Event.read I2C_ADDR 35] := by
  have hbus0 : ∀ trace addr src,
      (send_command bus OP_SHA 0x00 0x0000 [] 0).2.write_ret trace addr src =
        ((src.length : Nat) : Int) := by
    intro trace addr src
    rw [send_command_write_ret]; exact hbus trace addr src
  have hdiv : 0 + 64 * (message.length / 64) ≤ message.length := by omega
  obtain ⟨blocks, hlen, h64, hjoin, hok, hoff, htrace, hwr⟩ :=
    sha_update_loop_blocks message (message.length / 64) 0
      (send_command bus OP_SHA 0x00 0x0000 [] 0).2 hbus0 hdiv (by omega)
  have hoff' : (sha_update_loop message message.length 0
      (send_command bus OP_SHA 0x00 0x0000 [] 0).2).2.1 = 64 * (message.length / 64) := by
    rw [hoff]; omega
  have hrem : message.length - 64 * (message.length / 64) = message.length % 64 := by omega
  have hlast : (message.drop (64 * (message.length / 64))).length = message.length % 64 := by
    rw [List.length_drop]; exact hrem
  have hbusl : ∀ trace addr src,
      (sha_update_loop message message.length 0
        (send_command bus OP_SHA 0x00 0x0000 [] 0).2).2.2.write_ret trace addr src =
        ((src.length : Nat) : Int) := by
    intro trace addr src
    rw [hwr]; exact hbus0 trace addr src
  refine ⟨blocks, message.drop (64 * (message.length / 64)), hlen, h64, hlast, ?_, ?_, ?_⟩
  · have h := hjoin
    rw [Nat.zero_add, List.drop_zero] at h
    exact h
  · intro h0
    apply List.eq_nil_of_length_eq_zero
    rw [hlast, h0]
  · have hfinal : (compute_sha256_hash bus message response).2.trace =
        (send_command (sha_update_loop message message.length 0
            (send_command bus OP_SHA 0x00 0x0000 [] 0).2).2.2 OP_SHA 0x02
          ((message.length - 64 * (message.length / 64)) % 65536)
          (message.drop (64 * (message.length / 64)))
          (message.length - 64 * (message.length / 64))).2.trace ++
          [Event.read I2C_ADDR 35] := by
      unfold compute_sha256_hash
      simp only [strlen_eq_length message hstr]
      rw [if_neg (by simp [send_command_ok _ _ _ _ _ _ hbus]), if_neg (by simp [hok]), hoff',
        if_neg (by simp [send_command_ok _ _ _ _ _ _ hbusl])]
      split
      · exact i2c_read_blocking_safe_trace _ _ _
      · split <;> exact i2c_read_blocking_safe_trace _ _ _
    rw [hfinal, send_command_trace, htrace, send_command_trace, hrem,
      Nat.mod_eq_of_lt (show message.length % 64 < 65536 by omega)]
    simp [OP_SHA]

/-- Instance of C5: the 8-byte message of the demonstration program on a
quiet bus. -/
theorem compute_sha256_hash_commands_witness :
    ∃ (blocks : List (List Nat)) (last : List Nat),
      blocks.length = [0x43, 0x4F, 0x4C, 0x44, 0x20, 0x57, 0x41, 0x52].length / 64 ∧
      (∀ b ∈ blocks, b.length = 64) ∧
      last.length = [0x43, 0x4F, 0x4C, 0x44, 0x20, 0x57, 0x41, 0x52].length % 64 ∧
      blocks.flatten ++ last = [0x43, 0x4F, 0x4C, 0x44, 0x20, 0x57, 0x41, 0x52] ∧
      ([0x43, 0x4F, 0x4C, 0x44, 0x20, 0x57, 0x41, 0x52].length % 64 = 0 → last = []) ∧
      (compute_sha256_hash quiet_bus [0x43, 0x4F, 0x4C, 0x44, 0x20, 0x57, 0x41, 0x52] []).2.trace =
        quiet_bus.trace ++ [Event.write I2C_ADDR (full_command 0x47 0x00 0x0000 [] 0)] ++
          blocks.map (fun b => Event.write I2C_ADDR (full_command 0x47 0x01 0x0000 b 64)) ++
          [Event.write I2C_ADDR
              (full_command 0x47 0x02 ([0x43, 0x4F, 0x4C, 0x44, 0x20, 0x57, 0x41, 0x52].length % 64)
                last ([0x43, 0x4F, 0x4C, 0x44, 0x20, 0x57, 0x41, 0x52].length % 64)),
            Event.read I2C_ADDR 35] :=
  compute_sha256_hash_commands quiet_bus [0x43, 0x4F, 0x4C, 0x44, 0x20, 0x57, 0x41, 0x52] []
    (by decide) (fun _ _ _ => rfl)

end Atecc
